import Mathlib

/-!
Verification development for the MSP432 buffered ADC driver core
(`ti/drivers/adcbuf/ADCBufMSP432.h` and its conversion state machine).

The repository ships the driver header only: pin-configuration macros, the
`ADCBufMSP432_Object` state block, and the documented contracts of
`ADCBuf_init` / `ADCBuf_open` / `ADCBuf_convert` / `ADCBuf_convertCancel` /
`ADCBuf_convertAdjustedToMicroVolts`.  The pin-configuration encoding below is
embedded directly from the header.  The conversion state machine itself
(the `.c` implementation) is not part of the sources, so it is modelled from
the specification's words; each such definition is marked
`Modelled from the spec:`.
-/

namespace ADCBufMSP432

/-- Pin-config decoding from the header comment: `channel = pinConfig >> 10`. -/
def channelOf (pinConfig : Nat) : Nat := pinConfig >>> 10

/-- Pin-config decoding from the header comment: `port = (pinConfig >> 4) & 0xf`. -/
def portOf (pinConfig : Nat) : Nat := (pinConfig >>> 4) &&& 0xf

/-- Pin-config decoding from the header comment: the pin index is `pinConfig & 0xf`
(the header's `pin` is the one-hot mask `1 << (pinConfig & 0xf)`). -/
def pinIndexOf (pinConfig : Nat) : Nat := pinConfig &&& 0xf

/-- Pin-config decoding from the header comment: `moduleFunction = (pinConfig >> 8) & 0x3`. -/
def moduleFunctionOf (pinConfig : Nat) : Nat := (pinConfig >>> 8) &&& 0x3

/-- GPIO tertiary module function (all ADC modes are TERTIARY, bits 8 and 9 set). -/
def GPIO_TERTIARY_MODULE_FUNCTION : Nat := 3

/-- Header macro `ADCBufMSP432_P4_0_A13`. -/
def P4_0_A13 : Nat := (13 <<< 10) ||| 0x0340
/-- Header macro `ADCBufMSP432_P4_1_A12`. -/
def P4_1_A12 : Nat := (12 <<< 10) ||| 0x0341
/-- Header macro `ADCBufMSP432_P4_2_A11`. -/
def P4_2_A11 : Nat := (11 <<< 10) ||| 0x0342
/-- Header macro `ADCBufMSP432_P4_3_A10`. -/
def P4_3_A10 : Nat := (10 <<< 10) ||| 0x0343
/-- Header macro `ADCBufMSP432_P4_4_A9`. -/
def P4_4_A9 : Nat := (9 <<< 10) ||| 0x0344
/-- Header macro `ADCBufMSP432_P4_5_A8`. -/
def P4_5_A8 : Nat := (8 <<< 10) ||| 0x0345
/-- Header macro `ADCBufMSP432_P4_6_A7`. -/
def P4_6_A7 : Nat := (7 <<< 10) ||| 0x0346
/-- Header macro `ADCBufMSP432_P4_7_A6`. -/
def P4_7_A6 : Nat := (6 <<< 10) ||| 0x0347
/-- Header macro `ADCBufMSP432_P5_0_A5`. -/
def P5_0_A5 : Nat := (5 <<< 10) ||| 0x0350
/-- Header macro `ADCBufMSP432_P5_1_A4`. -/
def P5_1_A4 : Nat := (4 <<< 10) ||| 0x0351
/-- Header macro `ADCBufMSP432_P5_2_A3`. -/
def P5_2_A3 : Nat := (3 <<< 10) ||| 0x0352
/-- Header macro `ADCBufMSP432_P5_3_A2`. -/
def P5_3_A2 : Nat := (2 <<< 10) ||| 0x0353
/-- Header macro `ADCBufMSP432_P5_4_A1`. -/
def P5_4_A1 : Nat := (1 <<< 10) ||| 0x0354
/-- Header macro `ADCBufMSP432_P5_5_A0`. -/
def P5_5_A0 : Nat := (0 <<< 10) ||| 0x0355
/-- Header macro `ADCBufMSP432_P6_0_A15`. -/
def P6_0_A15 : Nat := (15 <<< 10) ||| 0x0360
/-- Header macro `ADCBufMSP432_P6_1_A14`. -/
def P6_1_A14 : Nat := (14 <<< 10) ||| 0x0361
/-- Header macro `ADCBufMSP432_P8_2_A23`. -/
def P8_2_A23 : Nat := (23 <<< 10) ||| 0x0382
/-- Header macro `ADCBufMSP432_P8_3_A22`. -/
def P8_3_A22 : Nat := (22 <<< 10) ||| 0x0383
/-- Header macro `ADCBufMSP432_P8_4_A21`. -/
def P8_4_A21 : Nat := (21 <<< 10) ||| 0x0384
/-- Header macro `ADCBufMSP432_P8_5_A20`. -/
def P8_5_A20 : Nat := (20 <<< 10) ||| 0x0385
/-- Header macro `ADCBufMSP432_P8_6_A19`. -/
def P8_6_A19 : Nat := (19 <<< 10) ||| 0x0386
/-- Header macro `ADCBufMSP432_P8_7_A18`. -/
def P8_7_A18 : Nat := (18 <<< 10) ||| 0x0387
/-- Header macro `ADCBufMSP432_P9_0_A17`. -/
def P9_0_A17 : Nat := (17 <<< 10) ||| 0x0390
/-- Header macro `ADCBufMSP432_P9_1_A16`. -/
def P9_1_A16 : Nat := (16 <<< 10) ||| 0x0391

/-- Decoded view of a pin-configuration word: channel, port, pin index, module function. -/
def decodePin (pinConfig : Nat) : Nat × Nat × Nat × Nat :=
  (channelOf pinConfig, portOf pinConfig, pinIndexOf pinConfig, moduleFunctionOf pinConfig)

/-- The driver error taxonomy (spec section 7 plus the header's open error). -/
inductive ADCError where
  | AlreadyInProgress
  | InvalidRequest
  | NotInProgress
  | Timeout
  | Cancelled
  | InvalidResolution
  | HardwareFault
  | HandleAlreadyOpen
deriving DecidableEq

/-- Recurrence mode of a conversion session (one-shot vs continuous). -/
inductive RecurrenceMode where
  | oneShot
  | continuous
deriving DecidableEq

/-- Return mode of a conversion session (blocking wait vs callback dispatch). -/
inductive ReturnMode where
  | blocking
  | callback
deriving DecidableEq

/-- Session state: `IDLE`, `ARMED`, `DELIVERING`, `CANCELLED`. -/
inductive SessionState where
  | idle
  | armed
  | delivering
  | cancelled
deriving DecidableEq

/-- A session is in progress exactly in the `ARMED` and `DELIVERING` states. -/
def SessionState.inProgress : SessionState → Bool
  | .armed => true
  | .delivering => true
  | _ => false

/-- Modelled from the spec: one `ConversionRequest` per channel in a session
(channel id, total requested samples, delivered-so-far counter).  The missing
`.c` implementation stores these as the `ADCBuf_Conversion` array plus the
`conversionSampleCount` field of `ADCBufMSP432_Object`. -/
structure ConversionRequest where
  channelId : Nat
  requestedSampleCount : Nat
  deliveredSampleCount : Nat
deriving DecidableEq

/-- Modelled from the spec: a completed-bank delivery.  `channel` and `isFinal`
are the spec's `BufferEvent` fields; `samples` is the number of samples in the
delivered bank (the content of the spec's `readyBuffer`), and `idx` records the
index of the originating request in the session's request list (instrumentation
tying an event back to its request slot). -/
structure BufferEvent where
  idx : Nat
  channel : Nat
  samples : Nat
  isFinal : Bool
deriving DecidableEq

/-- Modelled from the spec: the per-handle driver state, mirroring
`ADCBufMSP432_Object` (mutex, ping-pong flag, conversion bookkeeping, modes,
`isOpen`) together with instrumentation counters for the lock and the
power-management constraint used to state the exactly-once pairing properties. -/
structure Object where
  isOpen : Bool
  lockHeld : Bool
  powerConstraintHeld : Bool
  hwArmed : Bool
  state : SessionState
  requests : List ConversionRequest
  activeRequestIndex : Nat
  pingPongFlag : Bool
  bankFill : Nat
  recurrenceMode : RecurrenceMode
  returnMode : ReturnMode
  lockAcquireCount : Nat
  lockReleaseCount : Nat
  powerAcquireCount : Nat
  powerReleaseCount : Nat
deriving DecidableEq

/-- A request is satisfied once its delivered count has reached its requested count. -/
def satisfiedReq (r : ConversionRequest) : Bool :=
  decide (r.requestedSampleCount ≤ r.deliveredSampleCount)

/-- Round-robin scan order starting after index `i`: indices `i+1, …, len-1, 0, …, i`. -/
def rotationFrom (len i : Nat) : List Nat :=
  (List.range len).drop (i + 1) ++ (List.range len).take (i + 1)

/-- Modelled from the spec: round-robin advance.  The next active request is the
first, in the fixed scan order after the current index, whose request is not yet
satisfied; a satisfied channel is skipped without being removed from the list. -/
def nextUnsat (reqs : List ConversionRequest) (active : Nat) : Option Nat :=
  (rotationFrom reqs.length active).find? (fun i =>
    match reqs[i]? with
    | some r => ! satisfiedReq r
    | none => false)

/-- Modelled from the spec: `ADCBuf_init` initializes the driver, setting the
`isOpen` flag to false (missing `.c` front-end; header "General Behavior"). -/
def ADCBuf_init (o : Object) : Object := { o with isOpen := false }

/-- Modelled from the spec: `ADCBuf_open`.  Fails if the handle is already open
(header error list: "The ADC handle is already open"), leaving the state
unchanged; otherwise marks the handle open (missing `.c` front-end). -/
def openHandle (o : Object) : Object × Option ADCError :=
  if o.isOpen then (o, some .HandleAlreadyOpen)
  else ({ o with isOpen := true }, none)

/-- Modelled from the spec: `ConversionController.start` (`ADCBuf_convert`).
Fails with `AlreadyInProgress` if the mutual-exclusion lock is held, with
`InvalidRequest` if `reqs` is empty or any requested count is zero; otherwise
acquires the lock and the power constraint, initializes the session
(state `ARMED`, delivered counts zero, ping-pong flag reset) and arms the
hardware backend (missing `.c` implementation). -/
def start (o : Object) (reqs : List (Nat × Nat)) (rm : RecurrenceMode)
    (ret : ReturnMode) : Except ADCError Object :=
  if o.lockHeld then .error .AlreadyInProgress
  else if reqs.isEmpty || reqs.any (fun rc => rc.2 == 0) then .error .InvalidRequest
  else .ok { o with
    lockHeld := true, powerConstraintHeld := true, hwArmed := true,
    state := .armed,
    requests := reqs.map (fun rc =>
      { channelId := rc.1, requestedSampleCount := rc.2, deliveredSampleCount := 0 }),
    activeRequestIndex := 0, pingPongFlag := false, bankFill := 0,
    recurrenceMode := rm, returnMode := ret,
    lockAcquireCount := o.lockAcquireCount + 1,
    powerAcquireCount := o.powerAcquireCount + 1 }

/-- Modelled from the spec: `ConversionController.cancel` (`ADCBuf_convertCancel`).
On an in-progress session it disarms the hardware, transitions to `CANCELLED`,
releases the lock and the power constraint, and wakes a blocked waiter with
`Cancelled`; cancelling an idle session fails with `NotInProgress` (missing
`.c` implementation). -/
def cancel (o : Object) : Except ADCError (Object × Option ADCError) :=
  if o.state.inProgress then
    .ok ({ o with hwArmed := false, state := .cancelled,
                  lockHeld := false, powerConstraintHeld := false,
                  lockReleaseCount := o.lockReleaseCount + 1,
                  powerReleaseCount := o.powerReleaseCount + 1 },
         if o.returnMode = .blocking then some .Cancelled else none)
  else .error .NotInProgress

/-- Modelled from the spec: an unrecoverable `HardwareFault` forces the session
to `CANCELLED` and releases the lock and the power constraint, matching the
cancel cleanup path (spec section 7; missing `.c` implementation). -/
def onHardwareFault (o : Object) : Object :=
  if o.state.inProgress then
    { o with hwArmed := false, state := .cancelled,
             lockHeld := false, powerConstraintHeld := false,
             lockReleaseCount := o.lockReleaseCount + 1,
             powerReleaseCount := o.powerReleaseCount + 1 }
  else o

/-- Modelled from the spec: `PingPongBufferManager.onSampleComplete`, the
interrupt-completion handler (missing `.c` implementation).  `n` samples land
in the active bank for the current channel (clamped by the bank's remaining
space and, in one-shot mode, by the request's remaining quota — the short
final bank).  The delivered count of `requests[activeRequestIndex]` advances;
if the active bank is full (its per-fill quota reached) or the request just
completed, the ping-pong flag toggles and a `BufferEvent` is produced with
`isFinal` true iff one-shot and the request's delivered count equals its
requested count.  Round-robin then advances, skipping satisfied requests; a
one-shot session whose requests are all satisfied transitions to `IDLE`,
releasing the lock and the power constraint.  In continuous mode the request's
`requestedSampleCount` is the per-buffer-fill quota and its delivered count
resets to zero on each fill; the session never self-terminates.  Outside an
in-progress session the completion is ignored (hardware disarmed). -/
def onSampleComplete (bankSize n : Nat) (o : Object) : Object × Option BufferEvent :=
  if o.state.inProgress then
    match o.requests[o.activeRequestIndex]? with
    | none => (o, none)
    | some r =>
      match o.recurrenceMode with
      | .oneShot =>
        let delta := min n (min (bankSize - o.bankFill)
          (r.requestedSampleCount - r.deliveredSampleCount))
        let delivered := r.deliveredSampleCount + delta
        let fill := o.bankFill + delta
        let reqs := o.requests.set o.activeRequestIndex
          { r with deliveredSampleCount := delivered }
        if fill = bankSize ∨ delivered = r.requestedSampleCount then
          let ev : BufferEvent :=
            { idx := o.activeRequestIndex, channel := r.channelId, samples := fill,
              isFinal := decide (delivered = r.requestedSampleCount) }
          if reqs.all satisfiedReq then
            ({ o with requests := reqs, state := .idle, bankFill := 0,
                      pingPongFlag := !o.pingPongFlag, hwArmed := false,
                      lockHeld := false, powerConstraintHeld := false,
                      lockReleaseCount := o.lockReleaseCount + 1,
                      powerReleaseCount := o.powerReleaseCount + 1 }, some ev)
          else
            ({ o with requests := reqs, state := .delivering, bankFill := 0,
                      pingPongFlag := !o.pingPongFlag,
                      activeRequestIndex := (nextUnsat reqs o.activeRequestIndex).getD 0 },
             some ev)
        else
          ({ o with requests := reqs, state := .delivering, bankFill := fill }, none)
      | .continuous =>
        let delta := min n (r.requestedSampleCount - r.deliveredSampleCount)
        let delivered := r.deliveredSampleCount + delta
        if delivered = r.requestedSampleCount then
          let reqs := o.requests.set o.activeRequestIndex
            { r with deliveredSampleCount := 0 }
          let ev : BufferEvent :=
            { idx := o.activeRequestIndex, channel := r.channelId, samples := delivered,
              isFinal := false }
          ({ o with requests := reqs, state := .delivering,
                    pingPongFlag := !o.pingPongFlag,
                    activeRequestIndex := (nextUnsat reqs o.activeRequestIndex).getD 0 },
           some ev)
        else
          ({ o with requests := o.requests.set o.activeRequestIndex
                      { r with deliveredSampleCount := delivered },
                    state := .delivering }, none)
  else (o, none)

/-- An external stimulus on a handle: a hardware completion delivering `n`
samples, a task-context cancel request, or a hardware fault. -/
inductive Action where
  | hwComplete (n : Nat)
  | cancelReq
  | fault

/-- Modelled from the spec: one stimulus applied to the handle state, returning
the updated state and the buffer event (if any) delivered to the dispatcher. -/
def step (bankSize : Nat) (o : Object) (a : Action) : Object × Option BufferEvent :=
  match a with
  | .hwComplete n => onSampleComplete bankSize n o
  | .cancelReq =>
    match cancel o with
    | .ok p => (p.1, none)
    | .error _ => (o, none)
  | .fault => (onHardwareFault o, none)

/-- Run a stimulus sequence, collecting the delivered buffer events in order. -/
def run (bankSize : Nat) (o : Object) : List Action → Object × List BufferEvent
  | [] => (o, [])
  | a :: as =>
    let p := step bankSize o a
    let q := run bankSize p.1 as
    (q.1, p.2.toList ++ q.2)

/-- Number of ping-pong flag toggles along a run. -/
def toggleCount (bankSize : Nat) (o : Object) : List Action → Nat
  | [] => 0
  | a :: as =>
    let p := step bankSize o a
    (if p.1.pingPongFlag = o.pingPongFlag then 0 else 1) + toggleCount bankSize p.1 as

/-- Run a sequence of hardware completions only (a natural, uncancelled session). -/
def runHW (bankSize : Nat) (o : Object) : List Nat → Object × List BufferEvent
  | [] => (o, [])
  | n :: ns =>
    let p := onSampleComplete bankSize n o
    let q := runHW bankSize p.1 ns
    (q.1, p.2.toList ++ q.2)

/-- Outcome of a blocking wait: success with the final buffer event, or a
timeout with the (still in-progress) handle state. -/
inductive BlockOutcome where
  | success (o : Object) (ev : BufferEvent)
  | timedOut (o : Object)

/-- Modelled from the spec: `CompletionDispatcher`'s blocking wait (missing
`.c` implementation).  The caller blocks; hardware completions arrive as
`(tick, n)` pairs in order.  It resolves with success at the first
`BufferEvent` with `isFinal = true` arriving no later than `timeoutTicks`,
and with `Timeout` when `timeoutTicks` elapses first (the session left as it
stands, with its partial delivered count). -/
def blockWait (bankSize timeoutTicks : Nat) (o : Object) :
    List (Nat × Nat) → BlockOutcome
  | [] => .timedOut o
  | tn :: rest =>
    if timeoutTicks < tn.1 then .timedOut o
    else
      let p := onSampleComplete bankSize tn.2 o
      match p.2 with
      | some ev =>
        if ev.isFinal then .success p.1 ev
        else blockWait bankSize timeoutTicks p.1 rest
      | none => blockWait bankSize timeoutTicks p.1 rest

/-- Modelled from the spec: `ValueAdjuster.toMicrovolts`
(`ADCBuf_convertAdjustedToMicroVolts`; missing `.c` implementation):
`adjustedSample * referenceVoltageMicrovolts / (2^resolutionBits - 1)` in
integer arithmetic with truncation toward zero (`Int.tdiv`), failing with
`InvalidResolution` for `resolutionBits ≤ 0`. -/
def toMicrovolts (adjustedSample referenceVoltageMicrovolts : Int)
    (resolutionBits : Int) : Except ADCError Int :=
  if resolutionBits ≤ 0 then .error .InvalidResolution
  else .ok (Int.tdiv (adjustedSample * referenceVoltageMicrovolts)
    (2 ^ resolutionBits.toNat - 1))

/-- Sum of delivered samples over the events of request slot `i`. -/
def sumSamplesFor (evs : List BufferEvent) (i : Nat) : Nat :=
  ((evs.filter (fun e => e.idx == i)).map BufferEvent.samples).sum

/-- Number of final events of request slot `i`. -/
def finalCountFor (evs : List BufferEvent) (i : Nat) : Nat :=
  (evs.filter (fun e => e.idx == i && e.isFinal)).length

/-- Sum of delivered samples over the events of channel `c`. -/
def chanSum (evs : List BufferEvent) (c : Nat) : Nat :=
  ((evs.filter (fun e => e.channel == c)).map BufferEvent.samples).sum

/-- Number of final events of channel `c`. -/
def chanFinalCount (evs : List BufferEvent) (c : Nat) : Nat :=
  (evs.filter (fun e => e.channel == c && e.isFinal)).length

/-- The lock / power-constraint invariant: the lock is held exactly in the
`ARMED` and `DELIVERING` states, the power constraint is held exactly when the
lock is, and each has been released exactly once per completed acquisition. -/
def lockPowerInv (o : Object) : Prop :=
  o.lockHeld = o.state.inProgress
  ∧ o.powerConstraintHeld = o.lockHeld
  ∧ o.lockAcquireCount = o.lockReleaseCount + (if o.lockHeld then 1 else 0)
  ∧ o.powerAcquireCount = o.powerReleaseCount + (if o.powerConstraintHeld then 1 else 0)

/-- A freshly initialized, closed, idle handle. -/
def freshHandle : Object :=
  { isOpen := false, lockHeld := false, powerConstraintHeld := false, hwArmed := false,
    state := .idle, requests := [], activeRequestIndex := 0, pingPongFlag := false,
    bankFill := 0, recurrenceMode := .oneShot, returnMode := .callback,
    lockAcquireCount := 0, lockReleaseCount := 0,
    powerAcquireCount := 0, powerReleaseCount := 0 }

/-- The session invariant of a one-shot run: request identities are those given
at `start`; delivered counts never exceed requested counts; the events so far
plus the partial active bank account exactly for each request's delivered
count; each request has had a final event exactly when it is satisfied; an
`IDLE` state means every request is satisfied (with an empty bank); while in
progress the active request is a valid, unsatisfied index and the bank is not
yet full. -/
structure SessionInv (bankSize : Nat) (rs : List (Nat × Nat)) (o : Object)
    (evs : List BufferEvent) : Prop where
  mode : o.recurrenceMode = .oneShot
  stat : o.requests.map (fun r => (r.channelId, r.requestedSampleCount)) = rs
  pos : ∀ r ∈ o.requests, 0 < r.requestedSampleCount
  dle : ∀ r ∈ o.requests, r.deliveredSampleCount ≤ r.requestedSampleCount
  sums : ∀ i, (h : i < o.requests.length) →
    sumSamplesFor evs i + (if i = o.activeRequestIndex then o.bankFill else 0)
      = o.requests[i].deliveredSampleCount
  fins : ∀ i, (h : i < o.requests.length) →
    finalCountFor evs i
      = (if o.requests[i].deliveredSampleCount
            = o.requests[i].requestedSampleCount then 1 else 0)
  evOk : ∀ e ∈ evs, ∃ h : e.idx < o.requests.length,
    e.channel = o.requests[e.idx].channelId
  idleDone : o.state = .idle → ∀ r ∈ o.requests,
    r.deliveredSampleCount = r.requestedSampleCount
  idleBank : o.state = .idle → o.bankFill = 0
  actUnsat : o.state.inProgress = true → ∃ h : o.activeRequestIndex < o.requests.length,
    o.requests[o.activeRequestIndex].deliveredSampleCount
      < o.requests[o.activeRequestIndex].requestedSampleCount
  bank : o.state.inProgress = true → o.bankFill < bankSize

/-- Invariant of a single-request one-shot session between hardware
completions: the session is in progress on its sole, not yet satisfied
request (delivered `d < nReq` so far), with a not yet full bank. -/
def singleReqInv (bankSize c nReq : Nat) (o : Object) : Prop :=
  o.state.inProgress = true ∧ o.recurrenceMode = .oneShot
  ∧ o.activeRequestIndex = 0 ∧ o.bankFill < bankSize
  ∧ ∃ d, d < nReq ∧ o.requests =
      [{ channelId := c, requestedSampleCount := nReq, deliveredSampleCount := d }]

/-- Whether a blocking wait resolved successfully. -/
def BlockOutcome.isSuccess : BlockOutcome → Bool
  | .success _ _ => true
  | .timedOut _ => false

/-- A concrete armed handle with a single two-sample one-shot request, with
the lock and power constraint held (fixture for concrete instantiations). -/
def armedOneReq : Object :=
  { freshHandle with
    state := .armed, lockHeld := true, powerConstraintHeld := true,
    hwArmed := true,
    requests := [{ channelId := 0, requestedSampleCount := 2, deliveredSampleCount := 0 }],
    lockAcquireCount := 1, powerAcquireCount := 1 }

/-- The same fixture in blocking return mode. -/
def armedOneReqB : Object := { armedOneReq with returnMode := .blocking }

/-! Theorems. -/

/-- C9: every ADC pin-configuration macro `ADCBufMSP432_P<port>_<pin>_A<channel>`
defined in the header decodes — via `channel = pinConfig >> 10`,
`port = (pinConfig >> 4) & 0xf`, pin index `pinConfig & 0xf` and
`moduleFunction = (pinConfig >> 8) & 0x3` — to exactly the channel, port and
pin number stated in its name, with module function 3 (TERTIARY) in every case. -/
theorem pinConfig_macros_decode :
    decodePin P4_0_A13 = (13, 4, 0, GPIO_TERTIARY_MODULE_FUNCTION)
    ∧ decodePin P4_1_A12 = (12, 4, 1, GPIO_TERTIARY_MODULE_FUNCTION)
    ∧ decodePin P4_2_A11 = (11, 4, 2, GPIO_TERTIARY_MODULE_FUNCTION)
    ∧ decodePin P4_3_A10 = (10, 4, 3, GPIO_TERTIARY_MODULE_FUNCTION)
    ∧ decodePin P4_4_A9 = (9, 4, 4, GPIO_TERTIARY_MODULE_FUNCTION)
    ∧ decodePin P4_5_A8 = (8, 4, 5, GPIO_TERTIARY_MODULE_FUNCTION)
    ∧ decodePin P4_6_A7 = (7, 4, 6, GPIO_TERTIARY_MODULE_FUNCTION)
    ∧ decodePin P4_7_A6 = (6, 4, 7, GPIO_TERTIARY_MODULE_FUNCTION)
    ∧ decodePin P5_0_A5 = (5, 5, 0, GPIO_TERTIARY_MODULE_FUNCTION)
    ∧ decodePin P5_1_A4 = (4, 5, 1, GPIO_TERTIARY_MODULE_FUNCTION)
    ∧ decodePin P5_2_A3 = (3, 5, 2, GPIO_TERTIARY_MODULE_FUNCTION)
    ∧ decodePin P5_3_A2 = (2, 5, 3, GPIO_TERTIARY_MODULE_FUNCTION)
    ∧ decodePin P5_4_A1 = (1, 5, 4, GPIO_TERTIARY_MODULE_FUNCTION)
    ∧ decodePin P5_5_A0 = (0, 5, 5, GPIO_TERTIARY_MODULE_FUNCTION)
    ∧ decodePin P6_0_A15 = (15, 6, 0, GPIO_TERTIARY_MODULE_FUNCTION)
    ∧ decodePin P6_1_A14 = (14, 6, 1, GPIO_TERTIARY_MODULE_FUNCTION)
    ∧ decodePin P8_2_A23 = (23, 8, 2, GPIO_TERTIARY_MODULE_FUNCTION)
    ∧ decodePin P8_3_A22 = (22, 8, 3, GPIO_TERTIARY_MODULE_FUNCTION)
    ∧ decodePin P8_4_A21 = (21, 8, 4, GPIO_TERTIARY_MODULE_FUNCTION)
    ∧ decodePin P8_5_A20 = (20, 8, 5, GPIO_TERTIARY_MODULE_FUNCTION)
    ∧ decodePin P8_6_A19 = (19, 8, 6, GPIO_TERTIARY_MODULE_FUNCTION)
    ∧ decodePin P8_7_A18 = (18, 8, 7, GPIO_TERTIARY_MODULE_FUNCTION)
    ∧ decodePin P9_0_A17 = (17, 9, 0, GPIO_TERTIARY_MODULE_FUNCTION)
    ∧ decodePin P9_1_A16 = (16, 9, 1, GPIO_TERTIARY_MODULE_FUNCTION) := by
  refine ⟨?_, ?_, ?_, ?_, ?_, ?_, ?_, ?_, ?_, ?_, ?_, ?_, ?_, ?_, ?_, ?_, ?_,
    ?_, ?_, ?_, ?_, ?_, ?_, ?_⟩ <;> decide

/-- C8: for positive `resolutionBits`, `toMicrovolts` returns
`adjustedSample * referenceVoltageMicrovolts / (2^resolutionBits - 1)` in
integer arithmetic truncating toward zero (the magnitude of the result is the
Nat-division of the magnitudes), and for `resolutionBits ≤ 0` it fails with
`InvalidResolution`. -/
theorem toMicrovolts_contract (a v b : Int) :
    (0 < b →
      toMicrovolts a v b = .ok (Int.tdiv (a * v) (2 ^ b.toNat - 1))
      ∧ ∀ q, toMicrovolts a v b = .ok q →
        q.natAbs = (a * v).natAbs / ((2 : Int) ^ b.toNat - 1).natAbs)
    ∧ (b ≤ 0 → toMicrovolts a v b = .error .InvalidResolution) := by
  constructor
  · intro hb
    have hnb : ¬ b ≤ 0 := by omega
    constructor
    · simp [toMicrovolts, hnb]
    · intro q hq
      simp [toMicrovolts, hnb] at hq
      subst hq
      exact Int.natAbs_tdiv _ _
  · intro hb
    simp [toMicrovolts, hb]

/-- Witness for C8 at concrete inputs: `3 * 10 / (2^2 - 1) = 10`, and a
non-positive resolution fails. -/
theorem toMicrovolts_contract_witness :
    toMicrovolts 3 10 2 = .ok 10
    ∧ toMicrovolts 3 10 0 = .error .InvalidResolution := by
  constructor
  · rw [((toMicrovolts_contract 3 10 2).1 (by norm_num)).1]
    simp only [Except.ok.injEq]
    decide
  · exact (toMicrovolts_contract 3 10 0).2 (by norm_num)

/-- The request-validation flag of `start` is set exactly on empty request
lists or a zero requested count. -/
theorem invalid_reqs_flag (reqs : List (Nat × Nat))
    (h : reqs = [] ∨ ∃ rc ∈ reqs, rc.2 = 0) :
    (reqs.isEmpty || reqs.any fun rc => rc.2 == 0) = true := by
  rcases h with h | ⟨rc, hm, h0⟩
  · simp [h]
  · simp only [Bool.or_eq_true, List.any_eq_true]
    exact Or.inr ⟨rc, hm, by simp [h0]⟩

/-- C5: `start` fails with `AlreadyInProgress` when the handle's lock is held,
fails with `InvalidRequest` when (the lock is free and) the request list is
empty or some requested sample count is zero, and in every such failure case
no session is created (no success state is produced). -/
theorem start_validation (o : Object) (reqs : List (Nat × Nat))
    (rm : RecurrenceMode) (ret : ReturnMode) :
    (o.lockHeld = true → start o reqs rm ret = .error .AlreadyInProgress)
    ∧ (o.lockHeld = false → (reqs = [] ∨ ∃ rc ∈ reqs, rc.2 = 0) →
        start o reqs rm ret = .error .InvalidRequest)
    ∧ ((o.lockHeld = true ∨ reqs = [] ∨ (∃ rc ∈ reqs, rc.2 = 0)) →
        ∀ o', start o reqs rm ret ≠ .ok o') := by
  refine ⟨?_, ?_, ?_⟩
  · intro h
    simp [start, h]
  · intro h hbad
    simp [start, h, invalid_reqs_flag reqs hbad]
  · intro hbad o'
    by_cases hl : o.lockHeld
    · simp [start, hl]
    · rcases hbad with h | hbad
      · simp at hl
        simp [hl] at h
      · simp at hl
        simp [start, hl, invalid_reqs_flag reqs hbad]

/-- Witness for C5: a held lock yields `AlreadyInProgress`; an empty request
list yields `InvalidRequest`. -/
theorem start_validation_witness :
    start { freshHandle with lockHeld := true } [(0, 1)] .oneShot .callback
        = .error .AlreadyInProgress
    ∧ start freshHandle ([] : List (Nat × Nat)) .oneShot .callback
        = .error .InvalidRequest :=
  ⟨(start_validation _ _ _ _).1 rfl,
   (start_validation _ _ _ _).2.1 rfl (Or.inl rfl)⟩

/-- C6: `cancel` on an in-progress session disarms the hardware, transitions
to `CANCELLED`, releases the lock and the power constraint (each exactly once),
and wakes a blocked waiter with `Cancelled` in blocking mode (no wake in
callback mode); `cancel` on an idle handle fails with `NotInProgress`. -/
theorem cancel_contract (o : Object) :
    (o.state.inProgress = true →
      ∃ o' w, cancel o = .ok (o', w)
        ∧ o'.hwArmed = false ∧ o'.state = .cancelled
        ∧ o'.lockHeld = false ∧ o'.powerConstraintHeld = false
        ∧ o'.lockReleaseCount = o.lockReleaseCount + 1
        ∧ o'.powerReleaseCount = o.powerReleaseCount + 1
        ∧ (o.returnMode = .blocking → w = some .Cancelled)
        ∧ (o.returnMode = .callback → w = none))
    ∧ (o.state.inProgress = false → cancel o = .error .NotInProgress) := by
  constructor
  · intro h
    simp only [cancel, h, if_true]
    refine ⟨_, _, rfl, rfl, rfl, rfl, rfl, rfl, rfl, ?_, ?_⟩
    · intro hr
      simp [hr]
    · intro hr
      simp [hr]
  · intro h
    simp [cancel, h]

/-- Witness for C6: cancelling an idle fresh handle fails with
`NotInProgress`; cancelling an armed handle reaches `CANCELLED`. -/
theorem cancel_contract_witness :
    cancel freshHandle = .error .NotInProgress
    ∧ ∃ o' w, cancel { freshHandle with state := .armed } = .ok (o', w)
        ∧ o'.state = .cancelled ∧ o'.lockHeld = false := by
  refine ⟨(cancel_contract freshHandle).2 rfl, ?_⟩
  obtain ⟨o', w, hok, _, hst, hlk, _⟩ :=
    (cancel_contract { freshHandle with state := .armed }).1 rfl
  exact ⟨o', w, hok, hst, hlk⟩

/-- C10: initialization clears the `isOpen` flag; opening an already-open
handle fails with the already-open error and leaves the handle unchanged; a
successful open sets `isOpen`, and a second open after a successful one fails
— at most one successful open per handle without an intervening close. -/
theorem open_contract (o : Object) :
    (ADCBuf_init o).isOpen = false
    ∧ (o.isOpen = true → openHandle o = (o, some .HandleAlreadyOpen))
    ∧ (o.isOpen = false → (openHandle o).1.isOpen = true ∧ (openHandle o).2 = none)
    ∧ ((openHandle o).2 = none →
        (openHandle (openHandle o).1).2 = some .HandleAlreadyOpen) := by
  refine ⟨rfl, ?_, ?_, ?_⟩ <;> intro h
  · simp [openHandle, h]
  · simp [openHandle, h]
  · by_cases hOpen : o.isOpen
    · simp [openHandle, hOpen] at h
    · simp [openHandle, hOpen]

/-- Witness for C10: the fresh handle starts closed, opens once, and a second
open fails. -/
theorem open_contract_witness :
    (ADCBuf_init freshHandle).isOpen = false
    ∧ (openHandle freshHandle).1.isOpen = true
    ∧ (openHandle (openHandle freshHandle).1).2 = some .HandleAlreadyOpen :=
  ⟨(open_contract freshHandle).1,
   ((open_contract freshHandle).2.2.1 rfl).1,
   (open_contract freshHandle).2.2.2 ((open_contract freshHandle).2.2.1 rfl).2⟩

/-- The interrupt handler toggles the ping-pong flag exactly when it delivers
a buffer event. -/
theorem onSampleComplete_flag (bankSize n : Nat) (o : Object) :
    ((onSampleComplete bankSize n o).2.isSome = true
      ∧ (onSampleComplete bankSize n o).1.pingPongFlag = !o.pingPongFlag)
    ∨ ((onSampleComplete bankSize n o).2.isSome = false
      ∧ (onSampleComplete bankSize n o).1.pingPongFlag = o.pingPongFlag) := by
  unfold onSampleComplete
  dsimp only
  split
  · split
    · right
      simp
    · split
      · split
        · split
          · left
            simp
          · left
            simp
        · right
          simp
      · split
        · left
          simp
        · right
          simp
  · right
    simp

/-- A step toggles the ping-pong flag exactly when it delivers a buffer event
(cancel and fault never touch the flag and never deliver events). -/
theorem step_flag (bankSize : Nat) (o : Object) (a : Action) :
    (step bankSize o a).1.pingPongFlag
      = (if (step bankSize o a).2.isSome
          then !o.pingPongFlag else o.pingPongFlag) := by
  cases a with
  | hwComplete n =>
    rcases onSampleComplete_flag bankSize n o with ⟨h1, h2⟩ | ⟨h1, h2⟩ <;>
      simp [step, h1, h2]
  | cancelReq =>
    simp only [step, cancel]
    split <;> simp
  | fault =>
    simp only [step, onHardwareFault]
    split <;> simp

/-- C2: on every interrupt completion the ping-pong flag toggles exactly once
when the `onSampleComplete` handling fills a bank (delivers a buffer event)
and never toggles otherwise; consequently, over any run the number of flag
toggles equals the number of full-bank completions delivered. -/
theorem pingpong_toggle_iff (bankSize : Nat) (o : Object) (as : List Action) :
    (∀ n, ((onSampleComplete bankSize n o).2.isSome = true →
        (onSampleComplete bankSize n o).1.pingPongFlag = !o.pingPongFlag)
      ∧ ((onSampleComplete bankSize n o).2.isSome = false →
        (onSampleComplete bankSize n o).1.pingPongFlag = o.pingPongFlag))
    ∧ toggleCount bankSize o as = (run bankSize o as).2.length := by
  constructor
  · intro n
    rcases onSampleComplete_flag bankSize n o with ⟨h1, h2⟩ | ⟨h1, h2⟩
    · refine ⟨fun _ => h2, fun hc => ?_⟩
      rw [h1] at hc
      exact Bool.noConfusion hc
    · refine ⟨fun hc => ?_, fun _ => h2⟩
      rw [h1] at hc
      exact Bool.noConfusion hc
  · induction as generalizing o with
    | nil => rfl
    | cons a as ih =>
      have hf := step_flag bankSize o a
      simp only [toggleCount, run, List.length_append]
      rw [ih]
      rcases hs : (step bankSize o a).2 with _ | ev
      · rw [hs] at hf
        simp only [Option.isSome_none, Bool.false_eq_true, if_false] at hf
        simp [hf]
      · rw [hs] at hf
        simp only [Option.isSome_some, if_true] at hf
        simp [hf]

/-- Witness for C2: on a concrete armed handle, one full-bank completion
toggles the flag once and yields one event; the run-level count matches. -/
theorem pingpong_toggle_iff_witness :
    toggleCount 2 armedOneReq [.hwComplete 2]
        = (run 2 armedOneReq [.hwComplete 2]).2.length
    ∧ (onSampleComplete 2 2 armedOneReq).1.pingPongFlag
        = !armedOneReq.pingPongFlag :=
  ⟨(pingpong_toggle_iff 2 armedOneReq [.hwComplete 2]).2,
   ((pingpong_toggle_iff 2 armedOneReq [.hwComplete 2]).1 2).1 (by decide)⟩

/-- A session is in progress exactly in the `ARMED` and `DELIVERING` states. -/
theorem inProgress_iff (s : SessionState) :
    s.inProgress = true ↔ (s = .armed ∨ s = .delivering) := by
  cases s <;> simp [SessionState.inProgress]

/-- Every step (hardware completion, cancel, fault) preserves the lock/power
invariant and never acquires the lock or the power constraint. -/
theorem step_lockPowerInv (bankSize : Nat) (o : Object) (a : Action)
    (h : lockPowerInv o) :
    lockPowerInv (step bankSize o a).1
    ∧ (step bankSize o a).1.lockAcquireCount = o.lockAcquireCount
    ∧ (step bankSize o a).1.powerAcquireCount = o.powerAcquireCount := by
  obtain ⟨h1, h2, h3, h4⟩ := h
  cases a with
  | hwComplete n =>
    simp only [step]
    unfold onSampleComplete
    dsimp only
    split
    · rename_i hin
      have hl : o.lockHeld = true := h1.trans hin
      have hp : o.powerConstraintHeld = true := h2.trans hl
      rw [hl] at h3
      rw [hp] at h4
      simp only [if_true] at h3 h4
      split
      · exact ⟨⟨h1, h2, by rw [hl]; simpa using h3, by rw [hp]; simpa using h4⟩, rfl, rfl⟩
      · split
        · split
          · split
            · refine ⟨⟨rfl, rfl, ?_, ?_⟩, rfl, rfl⟩ <;> simp [h3, h4]
            · refine ⟨⟨?_, h2, ?_, ?_⟩, rfl, rfl⟩
              · rw [hl]
                rfl
              · rw [hl]
                simpa using h3
              · rw [hp]
                simpa using h4
          · refine ⟨⟨?_, h2, ?_, ?_⟩, rfl, rfl⟩
            · rw [hl]
              rfl
            · rw [hl]
              simpa using h3
            · rw [hp]
              simpa using h4
        · split
          · refine ⟨⟨?_, h2, ?_, ?_⟩, rfl, rfl⟩
            · rw [hl]
              rfl
            · rw [hl]
              simpa using h3
            · rw [hp]
              simpa using h4
          · refine ⟨⟨?_, h2, ?_, ?_⟩, rfl, rfl⟩
            · rw [hl]
              rfl
            · rw [hl]
              simpa using h3
            · rw [hp]
              simpa using h4
    · exact ⟨⟨h1, h2, h3, h4⟩, rfl, rfl⟩
  | cancelReq =>
    by_cases hin : o.state.inProgress = true
    · have hl : o.lockHeld = true := h1.trans hin
      have hp : o.powerConstraintHeld = true := h2.trans hl
      rw [hl] at h3
      rw [hp] at h4
      simp only [if_true] at h3 h4
      have hstep : step bankSize o .cancelReq
          = ({ o with
               hwArmed := false, state := .cancelled, lockHeld := false,
               powerConstraintHeld := false,
               lockReleaseCount := o.lockReleaseCount + 1,
               powerReleaseCount := o.powerReleaseCount + 1 }, none) := by
        simp [step, cancel, hin]
      rw [hstep]
      refine ⟨⟨rfl, rfl, ?_, ?_⟩, rfl, rfl⟩ <;> simp [h3, h4]
    · simp only [Bool.not_eq_true] at hin
      have hstep : step bankSize o .cancelReq = (o, none) := by
        simp [step, cancel, hin]
      rw [hstep]
      exact ⟨⟨h1, h2, h3, h4⟩, rfl, rfl⟩
  | fault =>
    by_cases hin : o.state.inProgress = true
    · have hl : o.lockHeld = true := h1.trans hin
      have hp : o.powerConstraintHeld = true := h2.trans hl
      rw [hl] at h3
      rw [hp] at h4
      simp only [if_true] at h3 h4
      have hstep : step bankSize o .fault
          = ({ o with
               hwArmed := false, state := .cancelled, lockHeld := false,
               powerConstraintHeld := false,
               lockReleaseCount := o.lockReleaseCount + 1,
               powerReleaseCount := o.powerReleaseCount + 1 }, none) := by
        simp [step, onHardwareFault, hin]
      rw [hstep]
      refine ⟨⟨rfl, rfl, ?_, ?_⟩, rfl, rfl⟩ <;> simp [h3, h4]
    · simp only [Bool.not_eq_true] at hin
      have hstep : step bankSize o .fault = (o, none) := by
        simp [step, onHardwareFault, hin]
      rw [hstep]
      exact ⟨⟨h1, h2, h3, h4⟩, rfl, rfl⟩

/-- A whole run preserves the lock/power invariant and acquires nothing. -/
theorem run_lockPowerInv (bankSize : Nat) (o : Object) (as : List Action)
    (h : lockPowerInv o) :
    lockPowerInv (run bankSize o as).1
    ∧ (run bankSize o as).1.lockAcquireCount = o.lockAcquireCount
    ∧ (run bankSize o as).1.powerAcquireCount = o.powerAcquireCount := by
  induction as generalizing o with
  | nil => exact ⟨h, rfl, rfl⟩
  | cons a as ih =>
    obtain ⟨s1, s2, s3⟩ := step_lockPowerInv bankSize o a h
    obtain ⟨g1, g2, g3⟩ := ih (step bankSize o a).1 s1
    exact ⟨g1, g2.trans s2, g3.trans s3⟩

/-- A successful `start` acquires the lock and the power constraint exactly
once, initializes the session `ARMED` with fresh counters, and implies the
requests were valid. -/
theorem start_ok_state (o o1 : Object) (reqs : List (Nat × Nat))
    (rm : RecurrenceMode) (ret : ReturnMode)
    (hs : start o reqs rm ret = .ok o1) :
    o.lockHeld = false
    ∧ o1.lockHeld = true ∧ o1.powerConstraintHeld = true ∧ o1.state = .armed
    ∧ o1.lockAcquireCount = o.lockAcquireCount + 1
    ∧ o1.lockReleaseCount = o.lockReleaseCount
    ∧ o1.powerAcquireCount = o.powerAcquireCount + 1
    ∧ o1.powerReleaseCount = o.powerReleaseCount
    ∧ o1.requests = reqs.map (fun rc =>
        { channelId := rc.1, requestedSampleCount := rc.2, deliveredSampleCount := 0 })
    ∧ o1.activeRequestIndex = 0 ∧ o1.bankFill = 0
    ∧ o1.recurrenceMode = rm ∧ o1.returnMode = ret
    ∧ reqs ≠ [] ∧ ∀ rc ∈ reqs, rc.2 ≠ 0 := by
  unfold start at hs
  split at hs
  · exact absurd hs (by simp)
  · rename_i hlock
    split at hs
    · exact absurd hs (by simp)
    · rename_i hcond
      simp only [Bool.or_eq_true, not_or, List.isEmpty_iff, List.any_eq_true,
        beq_iff_eq] at hcond
      obtain ⟨hne, hz⟩ := hcond
      push_neg at hz
      injection hs with hs
      subst hs
      simp only [Bool.not_eq_true] at hlock
      exact ⟨hlock, rfl, rfl, rfl, rfl, rfl, rfl, rfl, rfl, rfl, rfl, rfl, rfl, hne, hz⟩

/-- C1: for every session begun by a successful `start` on a handle satisfying
the lock/power invariant, after any sequence of completions, cancels and
faults the lock is held iff the state is `ARMED` or `DELIVERING`, and on every
terminal path the lock has been acquired exactly once (at `start`) and
released exactly once — no double release, no leak. -/
theorem lock_session_contract (bankSize : Nat) (o o1 : Object)
    (reqs : List (Nat × Nat)) (rm : RecurrenceMode) (ret : ReturnMode)
    (as : List Action) (h0 : lockPowerInv o)
    (hs : start o reqs rm ret = .ok o1) :
    ((run bankSize o1 as).1.lockHeld = true ↔
      ((run bankSize o1 as).1.state = .armed
        ∨ (run bankSize o1 as).1.state = .delivering))
    ∧ ((run bankSize o1 as).1.state.inProgress = false →
        (run bankSize o1 as).1.lockAcquireCount = o.lockAcquireCount + 1
        ∧ (run bankSize o1 as).1.lockReleaseCount = o.lockReleaseCount + 1) := by
  obtain ⟨holck, h1l, h1p, h1s, h1la, h1lr, h1pa, h1pr, _⟩ :=
    start_ok_state o o1 reqs rm ret hs
  obtain ⟨a1, a2, a3, a4⟩ := h0
  rw [holck] at a3
  simp only [if_false, Bool.false_eq_true, Nat.add_zero] at a3
  have hinv1 : lockPowerInv o1 := by
    refine ⟨?_, ?_, ?_, ?_⟩
    · rw [h1l, h1s]
      rfl
    · rw [h1p, h1l]
    · rw [h1la, h1lr, h1l]
      simp
      omega
    · rw [h1pa, h1pr, h1p]
      simp
      rw [a2, holck] at a4
      simp at a4
      omega
  obtain ⟨⟨g1, g2, g3, g4⟩, ga, gpa⟩ := run_lockPowerInv bankSize o1 as hinv1
  constructor
  · rw [g1]
    exact inProgress_iff _
  · intro hnp
    rw [hnp] at g1
    rw [g1] at g3
    simp only [Bool.false_eq_true, if_false, Nat.add_zero] at g3
    constructor
    · rw [ga, h1la]
    · omega

/-- Witness for C1 on a concrete completed session: one full-bank completion
finishes the single request; the lock ends released with exactly one
acquisition and one release. -/
theorem lock_session_contract_witness :
    ((run 2 armedOneReq [.hwComplete 2]).1.lockHeld = true ↔
      ((run 2 armedOneReq [.hwComplete 2]).1.state = .armed
        ∨ (run 2 armedOneReq [.hwComplete 2]).1.state = .delivering))
    ∧ ((run 2 armedOneReq [.hwComplete 2]).1.lockAcquireCount
          = freshHandle.lockAcquireCount + 1
        ∧ (run 2 armedOneReq [.hwComplete 2]).1.lockReleaseCount
          = freshHandle.lockReleaseCount + 1) :=
  ⟨(lock_session_contract 2 freshHandle armedOneReq [(0, 2)] .oneShot .callback
      [.hwComplete 2] ⟨rfl, rfl, rfl, rfl⟩ rfl).1,
   (lock_session_contract 2 freshHandle armedOneReq [(0, 2)] .oneShot .callback
      [.hwComplete 2] ⟨rfl, rfl, rfl, rfl⟩ rfl).2 (by decide)⟩

/-- C7: for every session begun by a successful `start` on a handle satisfying
the lock/power invariant, the power-management constraint is acquired exactly
once at `start`, is held exactly while the session is `ARMED` or `DELIVERING`
(never outside the session's lifetime), and on every terminal path
(completion, cancel or fault) it has been released exactly once — no
double-acquire, no double-release. -/
theorem power_session_contract (bankSize : Nat) (o o1 : Object)
    (reqs : List (Nat × Nat)) (rm : RecurrenceMode) (ret : ReturnMode)
    (as : List Action) (h0 : lockPowerInv o)
    (hs : start o reqs rm ret = .ok o1) :
    o1.powerAcquireCount = o.powerAcquireCount + 1
    ∧ o1.powerReleaseCount = o.powerReleaseCount
    ∧ ((run bankSize o1 as).1.powerConstraintHeld = true ↔
        ((run bankSize o1 as).1.state = .armed
          ∨ (run bankSize o1 as).1.state = .delivering))
    ∧ ((run bankSize o1 as).1.state.inProgress = false →
        (run bankSize o1 as).1.powerAcquireCount = o.powerAcquireCount + 1
        ∧ (run bankSize o1 as).1.powerReleaseCount = o.powerReleaseCount + 1) := by
  obtain ⟨holck, h1l, h1p, h1s, h1la, h1lr, h1pa, h1pr, _⟩ :=
    start_ok_state o o1 reqs rm ret hs
  obtain ⟨a1, a2, a3, a4⟩ := h0
  rw [holck] at a3
  rw [a2, holck] at a4
  simp only [if_false, Bool.false_eq_true, Nat.add_zero] at a3 a4
  have hinv1 : lockPowerInv o1 := by
    refine ⟨?_, ?_, ?_, ?_⟩
    · rw [h1l, h1s]
      rfl
    · rw [h1p, h1l]
    · rw [h1la, h1lr, h1l]
      simp
      omega
    · rw [h1pa, h1pr, h1p]
      simp
      omega
  obtain ⟨⟨g1, g2, g3, g4⟩, ga, gpa⟩ := run_lockPowerInv bankSize o1 as hinv1
  refine ⟨h1pa, h1pr, ?_, ?_⟩
  · rw [g2, g1]
    exact inProgress_iff _
  · intro hnp
    rw [hnp] at g1
    rw [g1] at g2
    rw [g2] at g4
    simp only [Bool.false_eq_true, if_false, Nat.add_zero] at g4
    constructor
    · rw [gpa, h1pa]
    · omega

/-- Witness for C7 on a concrete completed session: the power constraint is
acquired once at `start` and released once when the session completes. -/
theorem power_session_contract_witness :
    armedOneReq.powerAcquireCount = freshHandle.powerAcquireCount + 1
    ∧ ((run 2 armedOneReq [.hwComplete 2]).1.powerConstraintHeld = true ↔
        ((run 2 armedOneReq [.hwComplete 2]).1.state = .armed
          ∨ (run 2 armedOneReq [.hwComplete 2]).1.state = .delivering))
    ∧ (run 2 armedOneReq [.hwComplete 2]).1.powerReleaseCount
        = freshHandle.powerReleaseCount + 1 :=
  ⟨(power_session_contract 2 freshHandle armedOneReq [(0, 2)] .oneShot .callback
      [.hwComplete 2] ⟨rfl, rfl, rfl, rfl⟩ rfl).1,
   (power_session_contract 2 freshHandle armedOneReq [(0, 2)] .oneShot .callback
      [.hwComplete 2] ⟨rfl, rfl, rfl, rfl⟩ rfl).2.2.1,
   ((power_session_contract 2 freshHandle armedOneReq [(0, 2)] .oneShot .callback
      [.hwComplete 2] ⟨rfl, rfl, rfl, rfl⟩ rfl).2.2.2 (by decide)).2⟩

/-- One hardware completion on a single-request one-shot session either emits
the final event — the request then fully delivered and the session `IDLE` —
or emits no final event and preserves the single-request invariant. -/
theorem onSampleComplete_singleReq (bankSize n c nReq : Nat) (o : Object)
    (hI : singleReqInv bankSize c nReq o) :
    (∃ ev, (onSampleComplete bankSize n o).2 = some ev ∧ ev.isFinal = true
      ∧ (onSampleComplete bankSize n o).1.requests
          = [{ channelId := c, requestedSampleCount := nReq,
               deliveredSampleCount := nReq }]
      ∧ (onSampleComplete bankSize n o).1.state = .idle)
    ∨ ((∀ ev, (onSampleComplete bankSize n o).2 = some ev → ev.isFinal = false)
      ∧ singleReqInv bankSize c nReq (onSampleComplete bankSize n o).1) := by
  obtain ⟨hin, hmode, hact, hbf, d, hd, hreqs⟩ := hI
  have hget : o.requests[o.activeRequestIndex]?
      = some { channelId := c, requestedSampleCount := nReq,
               deliveredSampleCount := d } := by
    rw [hreqs, hact]
    rfl
  have hdelta1 : min n (min (bankSize - o.bankFill) (nReq - d))
      ≤ bankSize - o.bankFill :=
    le_trans (Nat.min_le_right _ _) (Nat.min_le_left _ _)
  have hdelta2 : min n (min (bankSize - o.bankFill) (nReq - d)) ≤ nReq - d :=
    le_trans (Nat.min_le_right _ _) (Nat.min_le_right _ _)
  simp only [onSampleComplete, hin, if_true, hget, hmode]
  dsimp only
  rw [hreqs, hact]
  simp only [List.set_cons_zero]
  split
  · rename_i hfull
    split
    · rename_i hallsat
      simp only [List.all_cons, List.all_nil, Bool.and_true, satisfiedReq,
        decide_eq_true_eq] at hallsat
      have heq : d + min n (min (bankSize - o.bankFill) (nReq - d)) = nReq := by
        omega
      refine Or.inl ⟨_, rfl, ?_, ?_, rfl⟩
      · simp [heq]
      · simp [heq]
    · rename_i hallsat
      simp only [List.all_cons, List.all_nil, Bool.and_true, satisfiedReq,
        decide_eq_true_eq, Bool.not_eq_true] at hallsat
      have hlt : d + min n (min (bankSize - o.bankFill) (nReq - d)) < nReq :=
        Nat.lt_of_not_le hallsat
      have hsat : satisfiedReq
          { channelId := c,
            requestedSampleCount := nReq,
            deliveredSampleCount :=
              d + min n (min (bankSize - o.bankFill) (nReq - d)) } = false := by
        simp only [satisfiedReq, decide_eq_false_iff_not]
        omega
      refine Or.inr ⟨?_, ?_⟩
      · intro ev hev
        simp only [Option.some.injEq] at hev
        rw [← hev]
        simp only [decide_eq_false_iff_not]
        omega
      · refine ⟨rfl, rfl, ?_, ?_, d + min n (min (bankSize - o.bankFill) (nReq - d)),
          hlt, rfl⟩
        · simp [nextUnsat, rotationFrom, List.find?, hsat]
        · dsimp only
          omega
  · rename_i hfull
    have hnfull := hfull
    simp only [not_or] at hnfull
    refine Or.inr ⟨?_, ?_⟩
    · intro ev hev
      exact Option.noConfusion hev
    · refine ⟨rfl, rfl, rfl, ?_, d + min n (min (bankSize - o.bankFill) (nReq - d)),
        ?_, rfl⟩
      · dsimp only
        omega
      · omega

/-- The blocking wait on a single-request one-shot session resolves success
only at a final event (request fully delivered, state `IDLE`), and resolves
timeout only with the session still in progress holding a partial delivered
count. -/
theorem blockWait_singleReq (bankSize timeoutTicks c nReq : Nat) (o : Object)
    (tevs : List (Nat × Nat)) (hI : singleReqInv bankSize c nReq o) :
    (∀ o' ev, blockWait bankSize timeoutTicks o tevs = .success o' ev →
      ev.isFinal = true
      ∧ o'.requests = [{ channelId := c, requestedSampleCount := nReq, deliveredSampleCount := nReq }]
      ∧ o'.state = .idle)
    ∧ (∀ o', blockWait bankSize timeoutTicks o tevs = .timedOut o' →
      o'.state.inProgress = true
      ∧ ∃ d, d < nReq ∧ o'.requests = [{ channelId := c, requestedSampleCount := nReq, deliveredSampleCount := d }]) := by
  induction tevs generalizing o with
  | nil =>
    constructor
    · intro o' ev h
      exact BlockOutcome.noConfusion h
    · intro o' h
      obtain ⟨hin, _, _, _, d, hd, hreqs⟩ := hI
      injection h with h
      subst h
      exact ⟨hin, d, hd, hreqs⟩
  | cons tn rest ih =>
    by_cases ht : timeoutTicks < tn.1
    · constructor
      · intro o' ev h
        simp only [blockWait] at h
        rw [if_pos ht] at h
        exact BlockOutcome.noConfusion h
      · intro o' h
        simp only [blockWait] at h
        rw [if_pos ht] at h
        obtain ⟨hin, _, _, _, d, hd, hreqs⟩ := hI
        injection h with h
        subst h
        exact ⟨hin, d, hd, hreqs⟩
    · rcases onSampleComplete_singleReq bankSize tn.2 c nReq o hI with
        ⟨ev0, hev0, hfin0, hreqs0, hidle0⟩ | ⟨hnf, hI1⟩
      · constructor
        · intro o' ev h
          simp only [blockWait] at h
          rw [if_neg ht] at h
          rw [hev0] at h
          dsimp only at h
          rw [hfin0] at h
          simp only [if_true] at h
          injection h with h1 h2
          subst h1
          subst h2
          exact ⟨hfin0, hreqs0, hidle0⟩
        · intro o' h
          simp only [blockWait] at h
          rw [if_neg ht] at h
          rw [hev0] at h
          dsimp only at h
          rw [hfin0] at h
          simp only [if_true] at h
          exact BlockOutcome.noConfusion h
      · obtain ⟨ihs, iht⟩ := ih (onSampleComplete bankSize tn.2 o).1 hI1
        constructor
        · intro o' ev h
          simp only [blockWait] at h
          rw [if_neg ht] at h
          rcases hev : (onSampleComplete bankSize tn.2 o).2 with _ | ev0
          · rw [hev] at h
            dsimp only at h
            exact ihs o' ev h
          · rw [hev] at h
            dsimp only at h
            rw [hnf ev0 hev] at h
            simp only [Bool.false_eq_true, if_false] at h
            exact ihs o' ev h
        · intro o' h
          simp only [blockWait] at h
          rw [if_neg ht] at h
          rcases hev : (onSampleComplete bankSize tn.2 o).2 with _ | ev0
          · rw [hev] at h
            dsimp only at h
            exact iht o' h
          · rw [hev] at h
            dsimp only at h
            rw [hnf ev0 hev] at h
            simp only [Bool.false_eq_true, if_false] at h
            exact iht o' h

/-- C4: for a `start` in BLOCKING mode (single-request one-shot session), the
blocking wait resolves success only when a `BufferEvent` with `isFinal = true`
arrives within `timeoutTicks` — the delivered count then equals the requested
count and the session is `IDLE` — and otherwise resolves `Timeout` with the
session left `ARMED`/`DELIVERING` holding the partial delivered count
accumulated so far (necessarily less than the requested count). -/
theorem blocking_contract (bankSize timeoutTicks c nReq : Nat) (o o1 : Object)
    (tevs : List (Nat × Nat)) (hb : 0 < bankSize)
    (hs : start o [(c, nReq)] .oneShot .blocking = .ok o1) :
    (∀ o' ev, blockWait bankSize timeoutTicks o1 tevs = .success o' ev →
      ev.isFinal = true
      ∧ o'.requests = [{ channelId := c, requestedSampleCount := nReq, deliveredSampleCount := nReq }]
      ∧ o'.state = .idle)
    ∧ (∀ o', blockWait bankSize timeoutTicks o1 tevs = .timedOut o' →
      (o'.state = .armed ∨ o'.state = .delivering)
      ∧ ∃ d, d < nReq ∧ o'.requests = [{ channelId := c, requestedSampleCount := nReq, deliveredSampleCount := d }]) := by
  obtain ⟨holck, h1l, h1p, h1s, h1la, h1lr, h1pa, h1pr, hreq, hact, hbf,
    hmode, hret, hne, hz⟩ := start_ok_state o o1 [(c, nReq)] .oneShot .blocking hs
  have hn : nReq ≠ 0 := by
    have := hz (c, nReq) (by simp)
    simpa using this
  have hI : singleReqInv bankSize c nReq o1 := by
    refine ⟨?_, hmode, hact, ?_, 0, Nat.pos_of_ne_zero hn, ?_⟩
    · rw [h1s]
      rfl
    · rw [hbf]
      exact hb
    · rw [hreq]
      rfl
  obtain ⟨hsucc, htime⟩ := blockWait_singleReq bankSize timeoutTicks c nReq o1 tevs hI
  refine ⟨hsucc, ?_⟩
  intro o' h
  obtain ⟨hin, hpart⟩ := htime o' h
  exact ⟨(inProgress_iff _).mp hin, hpart⟩

/-- Witness for C4: on a concrete blocking single-request session, a bank
arriving at tick 100 (within the 500-tick timeout) resolves success with the
full delivered count and an idle session. -/
theorem blocking_contract_witness :
    ∃ o' ev, blockWait 2 500 armedOneReqB [(100, 2)] = .success o' ev
      ∧ ev.isFinal = true ∧ o'.state = .idle
      ∧ o'.requests = [{ channelId := 0, requestedSampleCount := 2, deliveredSampleCount := 2 }] := by
  have hcs : (blockWait 2 500 armedOneReqB [(100, 2)]).isSuccess = true := by decide
  cases hbw : blockWait 2 500 armedOneReqB [(100, 2)] with
  | success o' ev =>
    obtain ⟨hf, hr, hst⟩ :=
      (blocking_contract 2 500 0 2 freshHandle armedOneReqB [(100, 2)]
        (by decide) rfl).1 o' ev hbw
    exact ⟨o', ev, rfl, hf, hst, hr⟩
  | timedOut o' =>
    rw [hbw] at hcs
    exact absurd hcs (by simp [BlockOutcome.isSuccess])

/-- Appending one event adds its samples to its slot's sample total. -/
theorem sumSamplesFor_append (evs : List BufferEvent) (ev : BufferEvent) (i : Nat) :
    sumSamplesFor (evs ++ [ev]) i
      = sumSamplesFor evs i + (if ev.idx = i then ev.samples else 0) := by
  simp only [sumSamplesFor, List.filter_append, List.map_append, List.sum_append]
  by_cases h : ev.idx = i
  · simp [h]
  · simp [h]

/-- Appending one event adds one to its slot's final count exactly when final. -/
theorem finalCountFor_append (evs : List BufferEvent) (ev : BufferEvent) (i : Nat) :
    finalCountFor (evs ++ [ev]) i
      = finalCountFor evs i + (if ev.idx = i ∧ ev.isFinal = true then 1 else 0) := by
  simp only [finalCountFor, List.filter_append, List.length_append]
  by_cases h1 : ev.idx = i <;> by_cases h2 : ev.isFinal = true <;>
    simp [h1, h2]

/-- The round-robin rotation visits every index below `len`. -/
theorem mem_rotationFrom (len i j : Nat) (hj : j < len) : j ∈ rotationFrom len i := by
  have hmem : j ∈ List.range len := List.mem_range.mpr hj
  rw [← List.take_append_drop (i + 1) (List.range len)] at hmem
  rcases List.mem_append.mp hmem with h | h
  · exact List.mem_append.mpr (Or.inr h)
  · exact List.mem_append.mpr (Or.inl h)

/-- When some request is unsatisfied, the round-robin advance finds an
unsatisfied one. -/
theorem nextUnsat_spec (reqs : List ConversionRequest) (active : Nat)
    (hex : reqs.all satisfiedReq = false) :
    ∃ j, nextUnsat reqs active = some j ∧ ∃ h : j < reqs.length,
      satisfiedReq reqs[j] = false := by
  obtain ⟨r, hr, hnr⟩ := List.all_eq_false.mp hex
  rw [Bool.not_eq_true] at hnr
  obtain ⟨k, hk, hkr⟩ := List.mem_iff_getElem.mp hr
  have hgk : reqs[k]? = some r := List.getElem?_eq_some_iff.mpr ⟨hk, hkr⟩
  have hsome : ((rotationFrom reqs.length active).find? (fun i =>
      match reqs[i]? with
      | some r => ! satisfiedReq r
      | none => false)).isSome = true := by
    refine List.find?_isSome.mpr ⟨k, mem_rotationFrom reqs.length active k hk, ?_⟩
    simp [hgk, hnr]
  obtain ⟨j, hj⟩ := Option.isSome_iff_exists.mp hsome
  have hpj := List.find?_some hj
  refine ⟨j, hj, ?_⟩
  cases hgj : reqs[j]? with
  | none =>
    simp only [hgj] at hpj
    exact Bool.noConfusion hpj
  | some rj =>
    obtain ⟨hlt, hje⟩ := List.getElem?_eq_some_iff.mp hgj
    refine ⟨hlt, ?_⟩
    rw [hje]
    simp only [hgj, Bool.not_eq_true'] at hpj
    exact hpj

/-- Setting a slot whose image under `f` is unchanged leaves the mapped list
unchanged. -/
theorem map_set_eq (reqs : List ConversionRequest) (i : Nat)
    (r' : ConversionRequest) (f : ConversionRequest → Nat × Nat)
    (hf : ∀ h : i < reqs.length, f r' = f reqs[i]) :
    (reqs.set i r').map f = reqs.map f := by
  apply List.ext_getElem (by simp)
  intro j h1 h2
  simp only [List.getElem_map, List.getElem_set]
  split
  · rename_i hij
    subst hij
    exact hf (by simpa using h2)
  · rfl

/-- A pointwise property preserved under setting one slot. -/
theorem forall_mem_set (reqs : List ConversionRequest) (i : Nat)
    (r' : ConversionRequest) (p : ConversionRequest → Prop)
    (hall : ∀ r ∈ reqs, p r) (hr' : p r') :
    ∀ r ∈ reqs.set i r', p r := by
  intro x hx
  rcases List.mem_or_eq_of_mem_set hx with h | h
  · exact hall x h
  · subst h
    exact hr'

/-- The interrupt handler preserves the one-shot session invariant, with the
delivered event (if any) appended to the event log. -/
theorem onSampleComplete_sessionInv (bankSize n : Nat) (rs : List (Nat × Nat))
    (o : Object) (evs : List BufferEvent) (hb : 0 < bankSize)
    (hI : SessionInv bankSize rs o evs) :
    SessionInv bankSize rs (onSampleComplete bankSize n o).1
      (evs ++ ((onSampleComplete bankSize n o).2).toList) := by
  by_cases hin : o.state.inProgress = true
  · obtain ⟨hA, hlt⟩ := hI.actUnsat hin
    have hget : o.requests[o.activeRequestIndex]?
        = some o.requests[o.activeRequestIndex] := List.getElem?_eq_getElem hA
    have hbf : o.bankFill < bankSize := hI.bank hin
    have hδ1 : min n (min (bankSize - o.bankFill)
        (o.requests[o.activeRequestIndex].requestedSampleCount
          - o.requests[o.activeRequestIndex].deliveredSampleCount))
        ≤ bankSize - o.bankFill :=
      le_trans (Nat.min_le_right _ _) (Nat.min_le_left _ _)
    have hδ2 : min n (min (bankSize - o.bankFill)
        (o.requests[o.activeRequestIndex].requestedSampleCount
          - o.requests[o.activeRequestIndex].deliveredSampleCount))
        ≤ o.requests[o.activeRequestIndex].requestedSampleCount
          - o.requests[o.activeRequestIndex].deliveredSampleCount :=
      le_trans (Nat.min_le_right _ _) (Nat.min_le_right _ _)
    simp only [onSampleComplete, hin, if_true, hget, hI.mode]
    generalize hδe : min n (min (bankSize - o.bankFill)
        (o.requests[o.activeRequestIndex].requestedSampleCount
          - o.requests[o.activeRequestIndex].deliveredSampleCount)) = δ
    rw [hδe] at hδ1 hδ2
    split
    · rename_i hfull
      split
      · -- bank delivered and every request satisfied: the session goes IDLE
        rename_i hallsat
        dsimp only [Option.toList]
        have hsat : satisfiedReq
            { channelId := o.requests[o.activeRequestIndex].channelId,
              requestedSampleCount :=
                o.requests[o.activeRequestIndex].requestedSampleCount,
              deliveredSampleCount :=
                o.requests[o.activeRequestIndex].deliveredSampleCount + δ }
            = true := by
          refine List.all_eq_true.mp hallsat _
            (List.mem_iff_getElem.mpr
              ⟨o.activeRequestIndex, by simpa using hA, ?_⟩)
          exact List.getElem_set_self (by simpa using hA)
        have heq : o.requests[o.activeRequestIndex].deliveredSampleCount + δ
            = o.requests[o.activeRequestIndex].requestedSampleCount := by
          simp only [satisfiedReq, decide_eq_true_eq] at hsat
          omega
        refine ⟨rfl, ?_, ?_, ?_, ?_, ?_, ?_, ?_, ?_, ?_, ?_⟩
        · exact (map_set_eq _ _ _ _ (fun h => rfl)).trans hI.stat
        · refine forall_mem_set _ _ _ _ hI.pos ?_
          show 0 < o.requests[o.activeRequestIndex].requestedSampleCount
          exact hI.pos _ (List.getElem_mem hA)
        · refine forall_mem_set _ _ _ _ hI.dle ?_
          show o.requests[o.activeRequestIndex].deliveredSampleCount + δ
            ≤ o.requests[o.activeRequestIndex].requestedSampleCount
          omega
        · intro i h
          have hs := hI.sums i (by simpa using h)
          rw [sumSamplesFor_append]
          by_cases hia : i = o.activeRequestIndex
          · subst hia
            rw [if_pos rfl] at hs
            simp [List.getElem_set]
            omega
          · rw [if_neg hia] at hs
            have hAi : o.activeRequestIndex ≠ i := fun hc => hia hc.symm
            simp [List.getElem_set, hAi]
            omega
        · intro i h
          have hf := hI.fins i (by simpa using h)
          rw [finalCountFor_append]
          by_cases hia : i = o.activeRequestIndex
          · subst hia
            have hf0 : finalCountFor evs o.activeRequestIndex = 0 := by
              rw [hf, if_neg (Nat.ne_of_lt hlt)]
            simp [List.getElem_set, hf0, heq]
          · have hAi : o.activeRequestIndex ≠ i := fun hc => hia hc.symm
            simp [List.getElem_set, hAi, hf]
        · intro e he
          rcases List.mem_append.mp he with h | h
          · obtain ⟨hel, hec⟩ := hI.evOk e h
            refine ⟨by simpa using hel, ?_⟩
            rw [hec]
            simp only [List.getElem_set]
            split
            · rename_i hx
              simp [← hx]
            · rfl
          · have he2 : e =
                { idx := o.activeRequestIndex,
                  channel := o.requests[o.activeRequestIndex].channelId,
                  samples := o.bankFill + δ,
                  isFinal := decide
                    (o.requests[o.activeRequestIndex].deliveredSampleCount + δ
                      = o.requests[o.activeRequestIndex].requestedSampleCount) } := by
              simpa using h
            subst he2
            refine ⟨by simpa using hA, ?_⟩
            simp [List.getElem_set]
        · intro _ x hx
          have hsx := List.all_eq_true.mp hallsat x hx
          have hdx : x.deliveredSampleCount ≤ x.requestedSampleCount := by
            refine forall_mem_set _ _ _ _ hI.dle ?_ x hx
            show o.requests[o.activeRequestIndex].deliveredSampleCount + δ
              ≤ o.requests[o.activeRequestIndex].requestedSampleCount
            omega
          simp only [satisfiedReq, decide_eq_true_eq] at hsx
          omega
        · intro _
          rfl
        · intro hcontra
          simp [SessionState.inProgress] at hcontra
        · intro hcontra
          simp [SessionState.inProgress] at hcontra
      · -- bank delivered, some request still unsatisfied: round-robin advances
        rename_i hallsat
        dsimp only [Option.toList]
        have hex : (o.requests.set o.activeRequestIndex
            { channelId := o.requests[o.activeRequestIndex].channelId,
              requestedSampleCount :=
                o.requests[o.activeRequestIndex].requestedSampleCount,
              deliveredSampleCount :=
                o.requests[o.activeRequestIndex].deliveredSampleCount + δ }).all
            satisfiedReq = false := Bool.eq_false_iff.mpr hallsat
        obtain ⟨j, hj, hjlt, hjsat⟩ := nextUnsat_spec _ o.activeRequestIndex hex
        refine ⟨rfl, ?_, ?_, ?_, ?_, ?_, ?_, ?_, ?_, ?_, ?_⟩
        · exact (map_set_eq _ _ _ _ (fun h => rfl)).trans hI.stat
        · refine forall_mem_set _ _ _ _ hI.pos ?_
          show 0 < o.requests[o.activeRequestIndex].requestedSampleCount
          exact hI.pos _ (List.getElem_mem hA)
        · refine forall_mem_set _ _ _ _ hI.dle ?_
          show o.requests[o.activeRequestIndex].deliveredSampleCount + δ
            ≤ o.requests[o.activeRequestIndex].requestedSampleCount
          omega
        · intro i h
          have hs := hI.sums i (by simpa using h)
          rw [sumSamplesFor_append]
          by_cases hia : i = o.activeRequestIndex
          · subst hia
            rw [if_pos rfl] at hs
            simp [List.getElem_set]
            omega
          · rw [if_neg hia] at hs
            have hAi : o.activeRequestIndex ≠ i := fun hc => hia hc.symm
            simp [List.getElem_set, hAi]
            omega
        · intro i h
          have hf := hI.fins i (by simpa using h)
          rw [finalCountFor_append]
          by_cases hia : i = o.activeRequestIndex
          · subst hia
            have hf0 : finalCountFor evs o.activeRequestIndex = 0 := by
              rw [hf, if_neg (Nat.ne_of_lt hlt)]
            by_cases heq2 : o.requests[o.activeRequestIndex].deliveredSampleCount + δ
                = o.requests[o.activeRequestIndex].requestedSampleCount <;>
              simp [List.getElem_set, hf0, heq2]
          · have hAi : o.activeRequestIndex ≠ i := fun hc => hia hc.symm
            simp [List.getElem_set, hAi, hf]
        · intro e he
          rcases List.mem_append.mp he with h | h
          · obtain ⟨hel, hec⟩ := hI.evOk e h
            refine ⟨by simpa using hel, ?_⟩
            rw [hec]
            simp only [List.getElem_set]
            split
            · rename_i hx
              simp [← hx]
            · rfl
          · have he2 : e =
                { idx := o.activeRequestIndex,
                  channel := o.requests[o.activeRequestIndex].channelId,
                  samples := o.bankFill + δ,
                  isFinal := decide
                    (o.requests[o.activeRequestIndex].deliveredSampleCount + δ
                      = o.requests[o.activeRequestIndex].requestedSampleCount) } := by
              simpa using h
            subst he2
            refine ⟨by simpa using hA, ?_⟩
            simp [List.getElem_set]
        · intro hcontra
          exact absurd hcontra (by simp)
        · intro hcontra
          exact absurd hcontra (by simp)
        · intro _
          rw [hj]
          refine ⟨by simpa using hjlt, ?_⟩
          have hjs := hjsat
          simp only [satisfiedReq, decide_eq_false_iff_not] at hjs
          show ((o.requests.set o.activeRequestIndex
              { channelId := o.requests[o.activeRequestIndex].channelId,
                requestedSampleCount :=
                  o.requests[o.activeRequestIndex].requestedSampleCount,
                deliveredSampleCount :=
                  o.requests[o.activeRequestIndex].deliveredSampleCount + δ })[j]).deliveredSampleCount
            < ((o.requests.set o.activeRequestIndex
              { channelId := o.requests[o.activeRequestIndex].channelId,
                requestedSampleCount :=
                  o.requests[o.activeRequestIndex].requestedSampleCount,
                deliveredSampleCount :=
                  o.requests[o.activeRequestIndex].deliveredSampleCount + δ })[j]).requestedSampleCount
          omega
        · intro _
          exact hb
    · -- bank not yet full: counters advance, no event
      rename_i hfull
      have hnfull := hfull
      simp only [not_or] at hnfull
      obtain ⟨hnb, hnd⟩ := hnfull
      dsimp only [Option.toList]
      rw [List.append_nil]
      refine ⟨rfl, ?_, ?_, ?_, ?_, ?_, ?_, ?_, ?_, ?_, ?_⟩
      · exact (map_set_eq _ _ _ _ (fun h => rfl)).trans hI.stat
      · refine forall_mem_set _ _ _ _ hI.pos ?_
        show 0 < o.requests[o.activeRequestIndex].requestedSampleCount
        exact hI.pos _ (List.getElem_mem hA)
      · refine forall_mem_set _ _ _ _ hI.dle ?_
        show o.requests[o.activeRequestIndex].deliveredSampleCount + δ
          ≤ o.requests[o.activeRequestIndex].requestedSampleCount
        omega
      · intro i h
        have hs := hI.sums i (by simpa using h)
        by_cases hia : i = o.activeRequestIndex
        · subst hia
          rw [if_pos rfl] at hs
          simp [List.getElem_set]
          omega
        · rw [if_neg hia] at hs
          have hAi : o.activeRequestIndex ≠ i := fun hc => hia hc.symm
          simp [List.getElem_set, hAi, hia]
          omega
      · intro i h
        have hf := hI.fins i (by simpa using h)
        by_cases hia : i = o.activeRequestIndex
        · subst hia
          have hf0 : finalCountFor evs o.activeRequestIndex = 0 := by
            rw [hf, if_neg (Nat.ne_of_lt hlt)]
          simp [List.getElem_set, hf0, hnd]
        · have hAi : o.activeRequestIndex ≠ i := fun hc => hia hc.symm
          simp [List.getElem_set, hAi, hf]
      · intro e he
        obtain ⟨hel, hec⟩ := hI.evOk e he
        refine ⟨by simpa using hel, ?_⟩
        rw [hec]
        simp only [List.getElem_set]
        split
        · rename_i hx
          simp [← hx]
        · rfl
      · intro hcontra
        exact absurd hcontra (by simp)
      · intro hcontra
        exact absurd hcontra (by simp)
      · intro _
        refine ⟨by simpa using hA, ?_⟩
        simp [List.getElem_set]
        omega
      · intro _
        show o.bankFill + δ < bankSize
        omega
  · have hno : onSampleComplete bankSize n o = (o, none) := by
      simp [onSampleComplete, hin]
    rw [hno]
    simpa using hI

/-- A whole run of hardware completions preserves the one-shot session
invariant, accumulating the delivered events. -/
theorem runHW_sessionInv (bankSize : Nat) (rs : List (Nat × Nat)) (o : Object)
    (evs : List BufferEvent) (ns : List Nat) (hb : 0 < bankSize)
    (hI : SessionInv bankSize rs o evs) :
    SessionInv bankSize rs (runHW bankSize o ns).1
      (evs ++ (runHW bankSize o ns).2) := by
  induction ns generalizing o evs with
  | nil => simpa [runHW] using hI
  | cons n ns ih =>
    have h1 := onSampleComplete_sessionInv bankSize n rs o evs hb hI
    have h2 := ih (onSampleComplete bankSize n o).1
      (evs ++ ((onSampleComplete bankSize n o).2).toList) h1
    simp only [runHW]
    rw [← List.append_assoc]
    exact h2

/-- A successful one-shot `start` establishes the session invariant with an
empty event log. -/
theorem start_sessionInv (bankSize : Nat) (o o1 : Object) (rs : List (Nat × Nat))
    (ret : ReturnMode) (hb : 0 < bankSize)
    (hs : start o rs .oneShot ret = .ok o1) :
    SessionInv bankSize rs o1 [] := by
  obtain ⟨holck, h1l, h1p, h1s, h1la, h1lr, h1pa, h1pr, hreq, hact, hbf,
    hmode, hret, hne, hz⟩ := start_ok_state o o1 rs .oneShot ret hs
  have hlen : o1.requests.length = rs.length := by
    rw [hreq]
    simp
  refine ⟨hmode, ?_, ?_, ?_, ?_, ?_, ?_, ?_, ?_, ?_, ?_⟩
  · rw [hreq, List.map_map]
    exact List.map_id rs
  · intro r hr
    rw [hreq] at hr
    obtain ⟨rc, hrc, hrr⟩ := List.mem_map.mp hr
    rw [← hrr]
    exact Nat.pos_of_ne_zero (hz rc hrc)
  · intro r hr
    rw [hreq] at hr
    obtain ⟨rc, hrc, hrr⟩ := List.mem_map.mp hr
    rw [← hrr]
    exact Nat.zero_le _
  · intro i h
    simp [sumSamplesFor, hreq, hbf]
  · intro i h
    rw [hlen] at h
    have hzz : rs[i].2 ≠ 0 := hz _ (List.getElem_mem h)
    simp [finalCountFor, hreq, Ne.symm hzz]
  · intro e he
    exact absurd he (List.not_mem_nil e)
  · intro hidle
    rw [h1s] at hidle
    exact absurd hidle (by simp)
  · intro hidle
    rw [h1s] at hidle
    exact absurd hidle (by simp)
  · intro _
    rw [hact]
    have hl0 : 0 < o1.requests.length := by
      rw [hlen]
      exact List.length_pos.mpr hne
    refine ⟨hl0, ?_⟩
    have h0 : 0 < rs.length := by
      rw [← hlen]
      exact hl0
    have hzz : rs[0].2 ≠ 0 := hz _ (List.getElem_mem h0)
    simp [hreq]
    omega
  · intro _
    rw [hbf]
    exact hb

/-- C3: for every one-shot session begun by a successful `start` with pairwise
distinct channels, whenever the session has reached `IDLE` every request is
fully satisfied (the session goes `IDLE` only once all requests are
satisfied), and for each channel with `N` requested samples exactly one
`BufferEvent` with `isFinal = true` was delivered for that channel and the
samples delivered across that channel's events total exactly `N`. -/
theorem oneshot_completion (bankSize : Nat) (rs : List (Nat × Nat))
    (o o1 : Object) (ret : ReturnMode) (ns : List Nat)
    (hb : 0 < bankSize) (hs : start o rs .oneShot ret = .ok o1)
    (hnd : (rs.map Prod.fst).Nodup) :
    ((runHW bankSize o1 ns).1.state = .idle →
      ∀ r ∈ (runHW bankSize o1 ns).1.requests,
        r.deliveredSampleCount = r.requestedSampleCount)
    ∧ ((runHW bankSize o1 ns).1.state = .idle →
      ∀ i, (h : i < rs.length) →
        chanFinalCount (runHW bankSize o1 ns).2 rs[i].1 = 1
        ∧ chanSum (runHW bankSize o1 ns).2 rs[i].1 = rs[i].2) := by
  have hI0 := start_sessionInv bankSize o o1 rs ret hb hs
  have hI := runHW_sessionInv bankSize rs o1 [] ns hb hI0
  rw [List.nil_append] at hI
  have hstat := hI.stat
  have hlen2 : (runHW bankSize o1 ns).1.requests.length = rs.length := by
    rw [← hstat]
    simp
  have hmap : (runHW bankSize o1 ns).1.requests.map (fun r => r.channelId)
      = rs.map Prod.fst := by
    rw [← hstat, List.map_map]
    rfl
  have hnd2 : ((runHW bankSize o1 ns).1.requests.map (fun r => r.channelId)).Nodup := by
    rw [hmap]
    exact hnd
  have hinj : ∀ j k, (hj : j < (runHW bankSize o1 ns).1.requests.length) →
      (hk : k < (runHW bankSize o1 ns).1.requests.length) →
      (runHW bankSize o1 ns).1.requests[j].channelId
        = (runHW bankSize o1 ns).1.requests[k].channelId → j = k := by
    intro j k hj hk hc
    have hiff := @List.Nodup.getElem_inj_iff _ _ hnd2 j (by simpa using hj)
      k (by simpa using hk)
    apply hiff.mp
    simpa using hc
  refine ⟨fun hidle => hI.idleDone hidle, ?_⟩
  intro hidle i h
  have hbound : i < (runHW bankSize o1 ns).1.requests.length := by
    rw [hlen2]
    exact h
  have hri : rs[i] = ((runHW bankSize o1 ns).1.requests[i].channelId,
      (runHW bankSize o1 ns).1.requests[i].requestedSampleCount) := by
    have hx := List.getElem_of_eq hstat.symm h
    rw [List.getElem_map] at hx
    exact hx
  have hfilter1 : ∀ q : BufferEvent → Bool,
      (runHW bankSize o1 ns).2.filter (fun e => e.channel == rs[i].1 && q e)
        = (runHW bankSize o1 ns).2.filter (fun e => e.idx == i && q e) := by
    intro q
    apply List.filter_congr
    intro e he
    obtain ⟨hei, hec⟩ := hI.evOk e he
    by_cases hid : e.idx = i
    · subst hid
      simp [hec, hri]
    · have hnc : ¬ e.channel = rs[i].1 := by
        rw [hec, hri]
        intro hc
        exact hid (hinj e.idx i hei hbound hc)
      have hb1 : (e.channel == rs[i].1) = false := by
        simp [hnc]
      have hb2 : (e.idx == i) = false := by
        simp [hid]
      rw [hb1, hb2]
  have hdone : (runHW bankSize o1 ns).1.requests[i].deliveredSampleCount
      = (runHW bankSize o1 ns).1.requests[i].requestedSampleCount :=
    hI.idleDone hidle _ (List.getElem_mem hbound)
  constructor
  · have hcf : chanFinalCount (runHW bankSize o1 ns).2 rs[i].1
        = finalCountFor (runHW bankSize o1 ns).2 i := by
      unfold chanFinalCount finalCountFor
      rw [hfilter1 (fun e => e.isFinal)]
    rw [hcf, hI.fins i hbound, if_pos hdone]
  · have hcs : chanSum (runHW bankSize o1 ns).2 rs[i].1
        = sumSamplesFor (runHW bankSize o1 ns).2 i := by
      unfold chanSum sumSamplesFor
      have hf := hfilter1 (fun _ => true)
      simp only [Bool.and_true] at hf
      rw [hf]
    have hsum := hI.sums i hbound
    rw [hI.idleBank hidle] at hsum
    simp only [ite_self, Nat.add_zero] at hsum
    rw [hcs, hsum, hdone]
    rw [hri]

/-- Witness for C3 on a concrete completed session: one full-bank completion
satisfies the single two-sample request, yielding exactly one final event for
channel 0 with two samples in total. -/
theorem oneshot_completion_witness :
    chanFinalCount (runHW 2 armedOneReq [2]).2 0 = 1
    ∧ chanSum (runHW 2 armedOneReq [2]).2 0 = 2 := by
  have h := (oneshot_completion 2 [(0, 2)] freshHandle armedOneReq .callback [2]
    (by decide) rfl (by decide)).2 (by decide) 0 (by decide)
  simpa using h

end ADCBufMSP432
